import Mathlib

/-!
Verification of the ISO 8601 interval (duration) codec of the `gt` library.

The development shallowly embeds the Go source:

* `gt_interval.go` — the `Interval` data model, formatter (`AppendTo`,
  `String`, `bufLen`) and conversions (`Duration`, `HasDate`, `HasTime`).
* `gt_interval_parse.go` — the hand-written state-machine parser
  (`parse`, `popPrefixInt`, `inc`, `undigit`).
* `gt_util.go` — formatting helpers (`intStrLen`, `addIntervalPartLen`,
  `appendIntervalPart`, the `zeroInterval` constant, the decimal-digit
  charset).
* the `NullInterval` wrapper type.

Modelling conventions:

* Go strings are byte strings; every byte the parser accepts and every
  byte the formatter emits is ASCII, so strings are modelled as
  `List Char` (on the ASCII fragment bytes and chars coincide).
* Go `int` fields are modelled as unbounded `Int`: the spec states that
  fields have no defined valid range and that overflow is explicitly out
  of scope.
* Functions that can panic (the parser recovers panics into a returned
  error through the deferred `rec`) are modelled with `Option`: `none`
  is a non-nil error, `some`/`true` is success.
* Go's goto-label state machine only jumps forward through the states
  `years → months → days → time → hours → minutes → seconds → eof`,
  so each label becomes a function that calls the later ones.
-/

namespace gt

/-- The `Interval` struct of `gt_interval.go`: six independent signed
integer fields. -/
structure Interval where
  Years : Int
  Months : Int
  Days : Int
  Hours : Int
  Minutes : Int
  Seconds : Int
deriving DecidableEq, Repr

/-- The Go zero value `Interval{}`. -/
def Interval.zero : Interval := ⟨0, 0, 0, 0, 0, 0⟩

/-- `Interval.IsZero`: `self == Interval{}`. -/
def Interval.IsZero (self : Interval) : Bool := decide (self = Interval.zero)

/-- `Interval.IsNull`: documented "Always `false`". -/
def Interval.IsNull (_self : Interval) : Bool := false

/-- `Interval.HasDate`: true if years, months or days is non-zero. -/
def Interval.HasDate (self : Interval) : Bool :=
  self.Years != 0 || self.Months != 0 || self.Days != 0

/-- `Interval.HasTime`: true if hours, minutes or seconds is non-zero. -/
def Interval.HasTime (self : Interval) : Bool :=
  self.Hours != 0 || self.Minutes != 0 || self.Seconds != 0

/-- The charset `charsetDigitDec = new(charset).add("0123456789")`:
membership is exactly the bytes 48..57. -/
def charsetDigitDec (c : Char) : Bool :=
  decide (48 ≤ c.toNat) && decide (c.toNat ≤ 57)

/-- `undigit(char) = int(char - '0')`, only ever applied to decimal
digits. -/
def undigit (c : Char) : Nat := c.toNat - 48

/-- `inc(num, char) = num*10 + undigit(char)`. -/
def inc (num : Int) (c : Char) : Int := num * 10 + (undigit c : Int)

/-- The digit-accumulation loop of `popPrefixInt`:
`for cur < len(src) && charsetDigitDec.has(src[cur]) { num = inc(num, src[cur]); cur++ }`. -/
def popDigitsLoop (num : Int) (src : List Char) : Int × List Char :=
  match src with
  | [] => (num, [])
  | c :: rest =>
    if charsetDigitDec c then popDigitsLoop (inc num c) rest
    else (num, c :: rest)

/-- `popPrefixInt` of `gt_interval_parse.go`: an optional leading `-`
(fixing `sig`), then at least one decimal digit (`none` models the
`errDigitEof` panic), then the digit loop; returns `sig * num` and the
rest. The two values of `sig` are written out as the two branches of
the leading-`-` test. -/
def popPrefixInt (src : List Char) : Option (Int × List Char) :=
  match src with
  | [] => none
  | c0 :: rest0 =>
    if c0 = '-' then
      match rest0 with
      | [] => none
      | c :: rest =>
        if charsetDigitDec c then
          let p := popDigitsLoop ((undigit c : Int)) rest
          some (-1 * p.1, p.2)
        else none
    else
      if charsetDigitDec c0 then
        let p := popDigitsLoop ((undigit c0 : Int)) rest0
        some (1 * p.1, p.2)
      else none

/-! ### The parser state machine

Each Go label of `Interval.parse` becomes one function. Reaching the Go
label `done` (end of input at a completion point) returns `some buf`;
every `panic(errFormatMismatch)` / `panic(io.EOF)` returns `none`. -/

/-- Label `eof`: trailing garbage after a complete duration fails. -/
def intervalEof (buf : Interval) (src : List Char) : Option Interval :=
  if src = [] then some buf else none

/-- Label `seconds`: end of input is done; else a signed int followed by
`S`. -/
def intervalSeconds (buf : Interval) (src : List Char) : Option Interval :=
  if src = [] then some buf
  else
    match popPrefixInt src with
    | none => none
    | some (num, rest) =>
      if rest.head? = some 'S' then intervalEof { buf with Seconds := num } rest.tail
      else none

/-- Label `minutes`: end of input is done; else a signed int followed by
`M` or `S`. -/
def intervalMinutes (buf : Interval) (src : List Char) : Option Interval :=
  if src = [] then some buf
  else
    match popPrefixInt src with
    | none => none
    | some (num, rest) =>
      if rest.head? = some 'M' then intervalSeconds { buf with Minutes := num } rest.tail
      else if rest.head? = some 'S' then intervalEof { buf with Seconds := num } rest.tail
      else none

/-- Label `hours`: end of input is done; else a signed int followed by
`H`, `M` or `S`. -/
def intervalHours (buf : Interval) (src : List Char) : Option Interval :=
  if src = [] then some buf
  else
    match popPrefixInt src with
    | none => none
    | some (num, rest) =>
      if rest.head? = some 'H' then intervalMinutes { buf with Hours := num } rest.tail
      else if rest.head? = some 'M' then intervalSeconds { buf with Minutes := num } rest.tail
      else if rest.head? = some 'S' then intervalEof { buf with Seconds := num } rest.tail
      else none

/-- Label `time`: end of input is done; a `T` enters the time section;
anything else fails. -/
def intervalTime (buf : Interval) (src : List Char) : Option Interval :=
  if src = [] then some buf
  else if src.head? = some 'T' then intervalHours buf src.tail
  else none

/-- Label `days`: end of input is done; `T` enters the time section;
else a signed int followed by `D`. -/
def intervalDays (buf : Interval) (src : List Char) : Option Interval :=
  if src = [] then some buf
  else if src.head? = some 'T' then intervalHours buf src.tail
  else
    match popPrefixInt src with
    | none => none
    | some (num, rest) =>
      if rest.head? = some 'D' then intervalTime { buf with Days := num } rest.tail
      else none

/-- Label `months`: end of input is done; `T` enters the time section;
else a signed int followed by `M` or `D`. -/
def intervalMonths (buf : Interval) (src : List Char) : Option Interval :=
  if src = [] then some buf
  else if src.head? = some 'T' then intervalHours buf src.tail
  else
    match popPrefixInt src with
    | none => none
    | some (num, rest) =>
      if rest.head? = some 'M' then intervalDays { buf with Months := num } rest.tail
      else if rest.head? = some 'D' then intervalTime { buf with Days := num } rest.tail
      else none

/-- Label `years`: end of input is done; `T` enters the time section;
else a signed int followed by `Y`, `M` or `D`. -/
def intervalYears (buf : Interval) (src : List Char) : Option Interval :=
  if src = [] then some buf
  else if src.head? = some 'T' then intervalHours buf src.tail
  else
    match popPrefixInt src with
    | none => none
    | some (num, rest) =>
      if rest.head? = some 'Y' then intervalMonths { buf with Years := num } rest.tail
      else if rest.head? = some 'M' then intervalDays { buf with Months := num } rest.tail
      else if rest.head? = some 'D' then intervalTime { buf with Days := num } rest.tail
      else none

/-- The body of `Interval.parse` up to the `done` label: empty input or a
first byte other than `P` fails; otherwise the machine runs on the local
`buf`, which starts as the zero `Interval`. -/
def intervalParse (src : List Char) : Option Interval :=
  if src.head? = some 'P' then intervalYears Interval.zero src.tail else none

/-- `Interval.Parse` with its receiver: `*self = buf` happens only at the
`done` label, after the whole input was validated; the deferred `rec`
turns any panic into a returned error (`false`) and leaves the receiver
as it was. -/
def Interval.Parse (self : Interval) (src : List Char) : Interval × Bool :=
  match intervalParse src with
  | some buf => (buf, true)
  | none => (self, false)

/-! ### The formatter -/

/-- The constant `zeroInterval = "PT0S"` of `gt_util.go`. -/
def zeroInterval : List Char := ['P', 'T', '0', 'S']

/-- The decimal digit character of value `m` (`m < 10` in every use). -/
def digitChar (m : Nat) : Char := Char.ofNat (48 + m)

/-- Fuel-indexed decimal digits of a natural number, most significant
first; the fuel argument only makes the recursion structural and is
irrelevant once it is at least `n` (`natDecDigitsAux_congr`). -/
def natDecDigitsAux : Nat → Nat → List Char
  | _, 0 => []
  | 0, _ + 1 => []
  | fuel + 1, n + 1 => natDecDigitsAux fuel ((n + 1) / 10) ++ [digitChar ((n + 1) % 10)]

/-- Decimal digits of a natural number, most significant first; empty
for `0`. -/
def natDecDigits (n : Nat) : List Char := natDecDigitsAux n n

/-- The decimal representation `strconv.AppendInt(buf, val, 10)` appends:
an optional `-` sign followed by the digits of the absolute value. -/
def intDec (val : Int) : List Char :=
  if val < 0 then '-' :: natDecDigits val.natAbs
  else if val = 0 then ['0']
  else natDecDigits val.natAbs

/-- `appendIntervalPart` of `gt_util.go`: nothing for a zero field, else
the decimal value followed by the unit letter. -/
def appendIntervalPart (buf : List Char) (val : Int) (delim : Char) : List Char :=
  if val = 0 then buf else buf ++ intDec val ++ [delim]

/-- The text one non-zero field contributes (`appendIntervalPart` on an
empty buffer). -/
def fmtPart (val : Int) (delim : Char) : List Char :=
  if val = 0 then [] else intDec val ++ [delim]

/-- The time section the formatter appends when some time field is
non-zero: `T` followed by the hour, minute and second parts. -/
def timeTail (H Mi S : Int) : List Char :=
  if H != 0 || Mi != 0 || S != 0 then
    'T' :: (fmtPart H 'H' ++ (fmtPart Mi 'M' ++ fmtPart S 'S'))
  else []

/-- `Interval.AppendTo`: the zero value appends the literal `PT0S`; any
other value appends `P`, the three date parts, and, when some time field
is non-zero, `T` and the three time parts. (The Go `Raw(buf).Grow`
call only reserves capacity and does not change the contents.) -/
def Interval.AppendTo (self : Interval) (buf : List Char) : List Char :=
  if self.IsZero then buf ++ zeroInterval
  else
    let b1 := appendIntervalPart (buf ++ ['P']) self.Years 'Y'
    let b2 := appendIntervalPart b1 self.Months 'M'
    let b3 := appendIntervalPart b2 self.Days 'D'
    if self.HasTime then
      appendIntervalPart
        (appendIntervalPart (appendIntervalPart (b3 ++ ['T']) self.Hours 'H')
          self.Minutes 'M')
        self.Seconds 'S'
    else b3

/-- `Interval.String`: the `zeroInterval` literal for the zero value,
else `AppendTo` on a fresh buffer. -/
def Interval.String (self : Interval) : List Char :=
  if self.IsZero then zeroInterval else Interval.AppendTo self []

/-! ### The buffer-length precomputation -/

/-- The digit loop of `intStrLen`:
`for val > 0 { val /= 10; out++ }` — it runs only while `val` is
positive, so a negative `val` contributes nothing here. Fuel-indexed to
keep the recursion structural. -/
def natStrLenAux : Nat → Nat → Nat
  | _, 0 => 0
  | 0, _ + 1 => 0
  | fuel + 1, n + 1 => 1 + natStrLenAux fuel ((n + 1) / 10)

/-- `intStrLen` of `gt_util.go`: one for the `-` sign when `val < 0`,
plus one per digit counted by the `for val > 0` loop (for a negative
`val` the loop body never runs, so only the sign is counted; `toNat`
sends negative values to `0` accordingly). -/
def intStrLen (val : Int) : Nat :=
  (if val < 0 then 1 else 0) + natStrLenAux val.toNat val.toNat

/-- `addIntervalPartLen`: a non-zero field adds one unit letter plus
`intStrLen` of the value. -/
def addIntervalPartLen (num : Nat) (val : Int) : Nat :=
  if val != 0 then num + (1 + intStrLen val) else num

/-- `Interval.bufLen`: `len("PT0S")` for the zero value, else 1 for `P`,
the three date parts, 1 for `T` when a time field is non-zero, and the
three time parts. -/
def Interval.bufLen (self : Interval) : Nat :=
  if self.IsZero then zeroInterval.length
  else
    let n1 := addIntervalPartLen 1 self.Years
    let n2 := addIntervalPartLen n1 self.Months
    let n3 := addIntervalPartLen n2 self.Days
    let n4 := if self.HasTime then n3 + 1 else n3
    let n5 := addIntervalPartLen n4 self.Hours
    let n6 := addIntervalPartLen n5 self.Minutes
    addIntervalPartLen n6 self.Seconds

/-! ### Fixed-unit duration conversion -/

/-- `time.Second` in nanoseconds. -/
def timeSecondNs : Int := 1000000000

/-- `time.Minute` in nanoseconds. -/
def timeMinuteNs : Int := 60 * timeSecondNs

/-- `time.Hour` in nanoseconds. -/
def timeHourNs : Int := 60 * timeMinuteNs

/-- `Interval.Duration`: panics (`none`) when the interval has a date
constituent, else the nanosecond sum of the time fields. -/
def Interval.Duration (self : Interval) : Option Int :=
  if self.HasDate then none
  else
    some (self.Hours * timeHourNs + self.Minutes * timeMinuteNs +
      self.Seconds * timeSecondNs)

/-! ### The null variant -/

/-- `type NullInterval Interval`: an identical field layout, differing
only in encoding conventions. -/
def NullInterval : Type := Interval

/-- `NullInterval.IsZero`: delegates to `Interval.IsZero`. -/
def NullInterval.IsZero (self : NullInterval) : Bool := Interval.IsZero self

/-- `NullInterval.IsNull`: documented "True if zero". -/
def NullInterval.IsNull (self : NullInterval) : Bool := NullInterval.IsZero self

/-- `NullInterval.Parse`: empty input zeroes the receiver and succeeds
without invoking the grammar parser; otherwise it delegates to
`Interval.Parse`. -/
def NullInterval.Parse (self : NullInterval) (src : List Char) : NullInterval × Bool :=
  if src.length = 0 then (Interval.zero, true)
  else Interval.Parse self src

/-- The positional value of a most-significant-first digit list
(specification helper for the round-trip proofs). -/
def digitsVal : List Char → Int
  | [] => 0
  | c :: rest => (undigit c : Int) * (10 : Int) ^ rest.length + digitsVal rest

/-! ## Lemmas about digits and the integer scanner -/

theorem digitChar_digit (m : Nat) (h : m < 10) :
    charsetDigitDec (digitChar m) = true := by
  interval_cases m <;> decide

theorem undigit_digitChar (m : Nat) (h : m < 10) :
    undigit (digitChar m) = m := by
  interval_cases m <;> decide

theorem digit_ne (c x : Char) (h : charsetDigitDec c = true)
    (hx : charsetDigitDec x = false) : c ≠ x := by
  intro e
  subst e
  rw [h] at hx
  exact Bool.noConfusion hx

theorem digitsVal_append_single (L : List Char) (c : Char) :
    digitsVal (L ++ [c]) = digitsVal L * 10 + (undigit c : Int) := by
  induction L with
  | nil => simp [digitsVal]
  | cons a L ih =>
      rw [List.cons_append, digitsVal, digitsVal, ih, List.length_append]
      simp only [List.length_singleton]
      ring

theorem popDigitsLoop_append (L : List Char) :
    ∀ (acc : Int) (rest : List Char),
      (∀ c ∈ L, charsetDigitDec c = true) →
      (∀ c, rest.head? = some c → charsetDigitDec c = false) →
      popDigitsLoop acc (L ++ rest) =
        (acc * (10 : Int) ^ L.length + digitsVal L, rest) := by
  induction L with
  | nil =>
      intro acc rest _ hrest
      cases rest with
      | nil => simp [popDigitsLoop, digitsVal]
      | cons c r =>
          simp [popDigitsLoop, digitsVal, hrest c rfl]
  | cons c L ih =>
      intro acc rest hL hrest
      have hc : charsetDigitDec c = true := hL c (List.mem_cons_self c L)
      have hL2 : ∀ d ∈ L, charsetDigitDec d = true :=
        fun d hd => hL d (List.mem_cons_of_mem c hd)
      rw [List.cons_append]
      show popDigitsLoop acc (c :: (L ++ rest)) = _
      simp only [popDigitsLoop]
      rw [if_pos hc, ih (inc acc c) rest hL2 hrest]
      simp only [inc, digitsVal, List.length_cons, Prod.mk.injEq]
      constructor
      · ring
      · trivial

theorem popPrefixInt_digits (L rest : List Char) (hne : L ≠ [])
    (hL : ∀ c ∈ L, charsetDigitDec c = true)
    (hrest : ∀ c, rest.head? = some c → charsetDigitDec c = false) :
    popPrefixInt (L ++ rest) = some (digitsVal L, rest) := by
  obtain ⟨c, L2, rfl⟩ := List.exists_cons_of_ne_nil hne
  have hc : charsetDigitDec c = true := hL c (List.mem_cons_self c L2)
  have hcm : c ≠ '-' := digit_ne c '-' hc (by decide)
  rw [List.cons_append]
  show popPrefixInt (c :: (L2 ++ rest)) = _
  simp only [popPrefixInt]
  rw [if_neg hcm, if_pos hc,
    popDigitsLoop_append L2 ((undigit c : Int)) rest
      (fun d hd => hL d (List.mem_cons_of_mem c hd)) hrest]
  simp [digitsVal]

/-! ## Lemmas about decimal formatting -/

theorem natDecDigitsAux_congr :
    ∀ (f1 f2 n : Nat), n ≤ f1 → n ≤ f2 →
      natDecDigitsAux f1 n = natDecDigitsAux f2 n := by
  intro f1
  induction f1 with
  | zero =>
      intro f2 n h1 _
      have : n = 0 := Nat.le_zero.mp h1
      subst this
      cases f2 <;> rfl
  | succ g ih =>
      intro f2 n h1 h2
      cases n with
      | zero => cases f2 <;> rfl
      | succ m =>
          cases f2 with
          | zero => exact absurd h2 (by omega)
          | succ g2 =>
              have hd : (m + 1) / 10 < m + 1 :=
                Nat.div_lt_self (Nat.succ_pos m) (by decide)
              simp only [natDecDigitsAux]
              rw [ih g2 ((m + 1) / 10) (by omega) (by omega)]

theorem natDecDigits_eq (n : Nat) (h : n ≠ 0) :
    natDecDigits n = natDecDigits (n / 10) ++ [digitChar (n % 10)] := by
  obtain ⟨m, rfl⟩ := Nat.exists_eq_succ_of_ne_zero h
  have hd : (m + 1) / 10 < m + 1 :=
    Nat.div_lt_self (Nat.succ_pos m) (by decide)
  show natDecDigitsAux (m + 1) (m + 1) = _
  simp only [natDecDigitsAux]
  rw [natDecDigitsAux_congr m ((m + 1) / 10) ((m + 1) / 10) (by omega) (by omega)]
  rfl

theorem natDecDigits_spec (n : Nat) :
    (∀ c ∈ natDecDigits n, charsetDigitDec c = true) ∧
      digitsVal (natDecDigits n) = (n : Int) ∧ (n ≠ 0 → natDecDigits n ≠ []) := by
  induction n using Nat.strong_induction_on with
  | _ n ih =>
      by_cases h : n = 0
      · subst h
        refine ⟨?_, ?_, ?_⟩
        · intro c hc
          simp [natDecDigits, natDecDigitsAux] at hc
        · simp [natDecDigits, natDecDigitsAux, digitsVal]
        · intro hh
          exact absurd rfl hh
      · have hdiv : n / 10 < n := Nat.div_lt_self (Nat.pos_of_ne_zero h) (by decide)
        have hmod : n % 10 < 10 := Nat.mod_lt n (by decide)
        obtain ⟨ihd, ihv, _⟩ := ih (n / 10) hdiv
        rw [natDecDigits_eq n h]
        refine ⟨?_, ?_, ?_⟩
        · intro c hc
          rcases List.mem_append.mp hc with hc | hc
          · exact ihd c hc
          · rcases List.mem_singleton.mp hc with rfl
            exact digitChar_digit _ hmod
        · rw [digitsVal_append_single, ihv, undigit_digitChar _ hmod]
          have := Nat.div_add_mod n 10
          push_cast
          omega
        · intro _
          simp

theorem intDec_ne_nil (n : Int) : intDec n ≠ [] := by
  by_cases hneg : n < 0
  · simp [intDec, hneg]
  · by_cases hz : n = 0
    · simp [intDec, hneg, hz]
    · have habs : n.natAbs ≠ 0 := by omega
      simp only [intDec, if_neg hneg, if_neg hz]
      exact (natDecDigits_spec n.natAbs).2.2 habs

theorem intDec_head_not_t (n : Int) (c : Char) (t : List Char)
    (h : intDec n = c :: t) : c ≠ 'T' := by
  by_cases hneg : n < 0
  · simp only [intDec, if_pos hneg] at h
    cases h
    decide
  · by_cases hz : n = 0
    · simp only [intDec, if_neg hneg, if_pos hz] at h
      cases h
      decide
    · have habs : n.natAbs ≠ 0 := by omega
      simp only [intDec, if_neg hneg, if_neg hz] at h
      have hdig : charsetDigitDec c = true := by
        apply (natDecDigits_spec n.natAbs).1
        rw [h]
        exact List.mem_cons_self c t
      exact digit_ne c 'T' hdig (by decide)

theorem popPrefixInt_intDec (n : Int) (rest : List Char)
    (hrest : ∀ c, rest.head? = some c → charsetDigitDec c = false) :
    popPrefixInt (intDec n ++ rest) = some (n, rest) := by
  by_cases hneg : n < 0
  · have habs : n.natAbs ≠ 0 := by omega
    obtain ⟨hd, hv, hn⟩ := natDecDigits_spec n.natAbs
    obtain ⟨c, L2, hL⟩ := List.exists_cons_of_ne_nil (hn habs)
    have hc : charsetDigitDec c = true := by
      apply hd
      rw [hL]
      exact List.mem_cons_self c L2
    rw [intDec, if_pos hneg, hL, List.cons_append, List.cons_append]
    show popPrefixInt ('-' :: (c :: (L2 ++ rest))) = _
    simp only [popPrefixInt]
    rw [if_pos trivial, if_pos hc,
      popDigitsLoop_append L2 ((undigit c : Int)) rest
        (fun d hdm => hd d (by rw [hL]; exact List.mem_cons_of_mem c hdm)) hrest]
    have hval : (undigit c : Int) * (10 : Int) ^ L2.length + digitsVal L2 =
        (n.natAbs : Int) := by
      rw [← hv, hL]
      rfl
    simp only [hval]
    have hsig : (-1 : Int) * (n.natAbs : Int) = n := by omega
    rw [hsig]
  · by_cases hz : n = 0
    · subst hz
      have h1 := popPrefixInt_digits ['0'] rest (by simp)
        (by intro c hc; rcases List.mem_singleton.mp hc with rfl; decide) hrest
      rw [show digitsVal ['0'] = 0 by rfl] at h1
      rw [intDec]
      simpa using h1
    · have habs : n.natAbs ≠ 0 := by omega
      obtain ⟨hd, hv, hn⟩ := natDecDigits_spec n.natAbs
      have h1 := popPrefixInt_digits (natDecDigits n.natAbs) rest (hn habs) hd hrest
      rw [hv] at h1
      have heq : ((n.natAbs : Int)) = n := by omega
      rw [heq] at h1
      rw [intDec, if_neg hneg, if_neg hz]
      exact h1

/-! ## The formatter feeds the parser: per-state round-trip lemmas -/

theorem append_ne_nil (L r : List Char) (h : L ≠ []) : L ++ r ≠ [] := by
  obtain ⟨c, t, rfl⟩ := List.exists_cons_of_ne_nil h
  simp

theorem noDigit_cons (x : Char) (t : List Char) (hx : charsetDigitDec x = false) :
    ∀ c, (x :: t).head? = some c → charsetDigitDec c = false := by
  intro c h
  simp only [List.head?_cons, Option.some.injEq] at h
  exact h ▸ hx

theorem timeTail_eq (H Mi S : Int) :
    timeTail H Mi S =
      if H = 0 ∧ Mi = 0 ∧ S = 0 then []
      else 'T' :: (fmtPart H 'H' ++ (fmtPart Mi 'M' ++ fmtPart S 'S')) := by
  by_cases h : H = 0 ∧ Mi = 0 ∧ S = 0
  · obtain ⟨h1, h2, h3⟩ := h
    subst h1
    subst h2
    subst h3
    simp [timeTail]
  · rw [if_neg h]
    have hb : (H != 0 || Mi != 0 || S != 0) = true := by
      simp only [Bool.or_eq_true, bne_iff_ne, ne_eq]
      tauto
    simp [timeTail, hb]

theorem intervalSeconds_fmt (Y Mo D H Mi S : Int) :
    intervalSeconds ⟨Y, Mo, D, H, Mi, 0⟩ (fmtPart S 'S') =
      some ⟨Y, Mo, D, H, Mi, S⟩ := by
  by_cases hS : S = 0
  · subst hS
    simp [intervalSeconds, fmtPart]
  · rw [fmtPart, if_neg hS]
    simp only [intervalSeconds]
    rw [if_neg (append_ne_nil _ _ (intDec_ne_nil S)),
      popPrefixInt_intDec S ['S'] (noDigit_cons 'S' [] (by decide))]
    simp [intervalEof]

theorem intervalMinutes_fmt (Y Mo D H Mi S : Int) :
    intervalMinutes ⟨Y, Mo, D, H, 0, 0⟩ (fmtPart Mi 'M' ++ fmtPart S 'S') =
      some ⟨Y, Mo, D, H, Mi, S⟩ := by
  by_cases hMi : Mi = 0
  · subst hMi
    rw [fmtPart, if_pos rfl, List.nil_append]
    by_cases hS : S = 0
    · subst hS
      simp [intervalMinutes, fmtPart]
    · rw [fmtPart, if_neg hS]
      simp only [intervalMinutes]
      rw [if_neg (append_ne_nil _ _ (intDec_ne_nil S)),
        popPrefixInt_intDec S ['S'] (noDigit_cons 'S' [] (by decide))]
      simp [intervalEof]
  · rw [fmtPart, if_neg hMi, List.append_assoc, List.singleton_append]
    simp only [intervalMinutes]
    rw [if_neg (append_ne_nil _ _ (intDec_ne_nil Mi)),
      popPrefixInt_intDec Mi ('M' :: fmtPart S 'S') (noDigit_cons 'M' _ (by decide))]
    simpa using intervalSeconds_fmt Y Mo D H Mi S

theorem intervalHours_fmt (Y Mo D H Mi S : Int) :
    intervalHours ⟨Y, Mo, D, 0, 0, 0⟩
        (fmtPart H 'H' ++ (fmtPart Mi 'M' ++ fmtPart S 'S')) =
      some ⟨Y, Mo, D, H, Mi, S⟩ := by
  by_cases hH : H = 0
  · subst hH
    rw [fmtPart, if_pos rfl, List.nil_append]
    by_cases hMi : Mi = 0
    · subst hMi
      rw [fmtPart, if_pos rfl, List.nil_append]
      by_cases hS : S = 0
      · subst hS
        simp [intervalHours, fmtPart]
      · rw [fmtPart, if_neg hS]
        simp only [intervalHours]
        rw [if_neg (append_ne_nil _ _ (intDec_ne_nil S)),
          popPrefixInt_intDec S ['S'] (noDigit_cons 'S' [] (by decide))]
        simp [intervalEof]
    · rw [fmtPart, if_neg hMi, List.append_assoc, List.singleton_append]
      simp only [intervalHours]
      rw [if_neg (append_ne_nil _ _ (intDec_ne_nil Mi)),
        popPrefixInt_intDec Mi ('M' :: fmtPart S 'S') (noDigit_cons 'M' _ (by decide))]
      simpa using intervalSeconds_fmt Y Mo D 0 Mi S
  · rw [fmtPart, if_neg hH, List.append_assoc, List.singleton_append]
    simp only [intervalHours]
    rw [if_neg (append_ne_nil _ _ (intDec_ne_nil H)),
      popPrefixInt_intDec H ('H' :: (fmtPart Mi 'M' ++ fmtPart S 'S'))
        (noDigit_cons 'H' _ (by decide))]
    simpa using intervalMinutes_fmt Y Mo D H Mi S

theorem intervalTime_fmt (Y Mo D H Mi S : Int) :
    intervalTime ⟨Y, Mo, D, 0, 0, 0⟩ (timeTail H Mi S) =
      some ⟨Y, Mo, D, H, Mi, S⟩ := by
  rw [timeTail_eq]
  by_cases h : H = 0 ∧ Mi = 0 ∧ S = 0
  · obtain ⟨h1, h2, h3⟩ := h
    subst h1
    subst h2
    subst h3
    simp [intervalTime]
  · rw [if_neg h]
    simp only [intervalTime]
    rw [if_neg (List.cons_ne_nil 'T' _)]
    simpa using intervalHours_fmt Y Mo D H Mi S

theorem intervalDays_fmt (Y Mo D H Mi S : Int) :
    intervalDays ⟨Y, Mo, 0, 0, 0, 0⟩ (fmtPart D 'D' ++ timeTail H Mi S) =
      some ⟨Y, Mo, D, H, Mi, S⟩ := by
  by_cases hD : D = 0
  · subst hD
    rw [fmtPart, if_pos rfl, List.nil_append, timeTail_eq]
    by_cases h : H = 0 ∧ Mi = 0 ∧ S = 0
    · obtain ⟨h1, h2, h3⟩ := h
      subst h1
      subst h2
      subst h3
      simp [intervalDays]
    · rw [if_neg h]
      simp only [intervalDays]
      rw [if_neg (List.cons_ne_nil 'T' _)]
      simpa using intervalHours_fmt Y Mo 0 H Mi S
  · rw [fmtPart, if_neg hD, List.append_assoc, List.singleton_append]
    obtain ⟨c0, t, hc⟩ := List.exists_cons_of_ne_nil (intDec_ne_nil D)
    have hcT : c0 ≠ 'T' := intDec_head_not_t D c0 t hc
    rw [hc, List.cons_append]
    simp only [intervalDays]
    rw [if_neg (List.cons_ne_nil c0 _),
      if_neg (by simp [hcT] :
        ¬ (c0 :: (t ++ 'D' :: timeTail H Mi S)).head? = some 'T'),
      ← List.cons_append, ← hc,
      popPrefixInt_intDec D ('D' :: timeTail H Mi S) (noDigit_cons 'D' _ (by decide))]
    simpa using intervalTime_fmt Y Mo D H Mi S

theorem intervalMonths_fmt (Y Mo D H Mi S : Int) :
    intervalMonths ⟨Y, 0, 0, 0, 0, 0⟩
        (fmtPart Mo 'M' ++ (fmtPart D 'D' ++ timeTail H Mi S)) =
      some ⟨Y, Mo, D, H, Mi, S⟩ := by
  by_cases hMo : Mo = 0
  · subst hMo
    rw [fmtPart, if_pos rfl, List.nil_append]
    by_cases hD : D = 0
    · subst hD
      rw [fmtPart, if_pos rfl, List.nil_append, timeTail_eq]
      by_cases h : H = 0 ∧ Mi = 0 ∧ S = 0
      · obtain ⟨h1, h2, h3⟩ := h
        subst h1
        subst h2
        subst h3
        simp [intervalMonths]
      · rw [if_neg h]
        simp only [intervalMonths]
        rw [if_neg (List.cons_ne_nil 'T' _)]
        simpa using intervalHours_fmt Y 0 0 H Mi S
    · rw [fmtPart, if_neg hD, List.append_assoc, List.singleton_append]
      obtain ⟨c0, t, hc⟩ := List.exists_cons_of_ne_nil (intDec_ne_nil D)
      have hcT : c0 ≠ 'T' := intDec_head_not_t D c0 t hc
      rw [hc, List.cons_append]
      simp only [intervalMonths]
      rw [if_neg (List.cons_ne_nil c0 _),
        if_neg (by simp [hcT] :
          ¬ (c0 :: (t ++ 'D' :: timeTail H Mi S)).head? = some 'T'),
        ← List.cons_append, ← hc,
        popPrefixInt_intDec D ('D' :: timeTail H Mi S) (noDigit_cons 'D' _ (by decide))]
      simpa using intervalTime_fmt Y 0 D H Mi S
  · rw [fmtPart, if_neg hMo, List.append_assoc, List.singleton_append]
    obtain ⟨c0, t, hc⟩ := List.exists_cons_of_ne_nil (intDec_ne_nil Mo)
    have hcT : c0 ≠ 'T' := intDec_head_not_t Mo c0 t hc
    rw [hc, List.cons_append]
    simp only [intervalMonths]
    rw [if_neg (List.cons_ne_nil c0 _),
      if_neg (by simp [hcT] :
        ¬ (c0 :: (t ++ 'M' :: (fmtPart D 'D' ++ timeTail H Mi S))).head? = some 'T'),
      ← List.cons_append, ← hc,
      popPrefixInt_intDec Mo ('M' :: (fmtPart D 'D' ++ timeTail H Mi S))
        (noDigit_cons 'M' _ (by decide))]
    simpa using intervalDays_fmt Y Mo D H Mi S

theorem intervalYears_fmt (Y Mo D H Mi S : Int) :
    intervalYears ⟨0, 0, 0, 0, 0, 0⟩
        (fmtPart Y 'Y' ++ (fmtPart Mo 'M' ++ (fmtPart D 'D' ++ timeTail H Mi S))) =
      some ⟨Y, Mo, D, H, Mi, S⟩ := by
  by_cases hY : Y = 0
  · subst hY
    rw [fmtPart, if_pos rfl, List.nil_append]
    by_cases hMo : Mo = 0
    · subst hMo
      rw [fmtPart, if_pos rfl, List.nil_append]
      by_cases hD : D = 0
      · subst hD
        rw [fmtPart, if_pos rfl, List.nil_append, timeTail_eq]
        by_cases h : H = 0 ∧ Mi = 0 ∧ S = 0
        · obtain ⟨h1, h2, h3⟩ := h
          subst h1
          subst h2
          subst h3
          simp [intervalYears]
        · rw [if_neg h]
          simp only [intervalYears]
          rw [if_neg (List.cons_ne_nil 'T' _)]
          simpa using intervalHours_fmt 0 0 0 H Mi S
      · rw [fmtPart, if_neg hD, List.append_assoc, List.singleton_append]
        obtain ⟨c0, t, hc⟩ := List.exists_cons_of_ne_nil (intDec_ne_nil D)
        have hcT : c0 ≠ 'T' := intDec_head_not_t D c0 t hc
        rw [hc, List.cons_append]
        simp only [intervalYears]
        rw [if_neg (List.cons_ne_nil c0 _),
          if_neg (by simp [hcT] :
            ¬ (c0 :: (t ++ 'D' :: timeTail H Mi S)).head? = some 'T'),
          ← List.cons_append, ← hc,
          popPrefixInt_intDec D ('D' :: timeTail H Mi S)
            (noDigit_cons 'D' _ (by decide))]
        simpa using intervalTime_fmt 0 0 D H Mi S
    · rw [fmtPart, if_neg hMo, List.append_assoc, List.singleton_append]
      obtain ⟨c0, t, hc⟩ := List.exists_cons_of_ne_nil (intDec_ne_nil Mo)
      have hcT : c0 ≠ 'T' := intDec_head_not_t Mo c0 t hc
      rw [hc, List.cons_append]
      simp only [intervalYears]
      rw [if_neg (List.cons_ne_nil c0 _),
        if_neg (by simp [hcT] :
          ¬ (c0 :: (t ++ 'M' :: (fmtPart D 'D' ++ timeTail H Mi S))).head? = some 'T'),
        ← List.cons_append, ← hc,
        popPrefixInt_intDec Mo ('M' :: (fmtPart D 'D' ++ timeTail H Mi S))
          (noDigit_cons 'M' _ (by decide))]
      simpa using intervalDays_fmt 0 Mo D H Mi S
  · rw [fmtPart, if_neg hY, List.append_assoc, List.singleton_append]
    obtain ⟨c0, t, hc⟩ := List.exists_cons_of_ne_nil (intDec_ne_nil Y)
    have hcT : c0 ≠ 'T' := intDec_head_not_t Y c0 t hc
    rw [hc, List.cons_append]
    simp only [intervalYears]
    rw [if_neg (List.cons_ne_nil c0 _),
      if_neg (by simp [hcT] :
        ¬ (c0 :: (t ++ 'Y' :: (fmtPart Mo 'M' ++ (fmtPart D 'D' ++ timeTail H Mi S)))).head? =
          some 'T'),
      ← List.cons_append, ← hc,
      popPrefixInt_intDec Y ('Y' :: (fmtPart Mo 'M' ++ (fmtPart D 'D' ++ timeTail H Mi S)))
        (noDigit_cons 'Y' _ (by decide))]
    simpa using intervalMonths_fmt Y Mo D H Mi S

theorem appendIntervalPart_eq (buf : List Char) (val : Int) (d : Char) :
    appendIntervalPart buf val d = buf ++ fmtPart val d := by
  by_cases h : val = 0 <;> simp [appendIntervalPart, fmtPart, h]

theorem interval_string_shape (v : Interval) (hz : Interval.IsZero v = false) :
    Interval.String v =
      'P' :: (fmtPart v.Years 'Y' ++ (fmtPart v.Months 'M' ++
        (fmtPart v.Days 'D' ++ timeTail v.Hours v.Minutes v.Seconds))) := by
  simp only [Interval.String, Interval.AppendTo, hz, Bool.false_eq_true, if_false]
  by_cases ht : Interval.HasTime v = true
  · have ht2 : (v.Hours != 0 || v.Minutes != 0 || v.Seconds != 0) = true := ht
    simp only [ht, if_true, timeTail, ht2]
    simp [appendIntervalPart_eq, List.append_assoc]
  · have ht3 : Interval.HasTime v = false := by
      cases hb : Interval.HasTime v
      · rfl
      · exact absurd hb ht
    have ht2 : (v.Hours != 0 || v.Minutes != 0 || v.Seconds != 0) = false := ht3
    simp only [ht3, Bool.false_eq_true, if_false, timeTail, ht2]
    simp [appendIntervalPart_eq, List.append_assoc]

theorem intervalParse_string (v : Interval) :
    intervalParse (Interval.String v) = some v := by
  by_cases hz : Interval.IsZero v = true
  · have hv : v = Interval.zero := by
      simpa [Interval.IsZero] using hz
    subst hv
    decide
  · have hz2 : Interval.IsZero v = false := by
      cases hb : Interval.IsZero v
      · rfl
      · exact absurd hb hz
    rw [interval_string_shape v hz2]
    simp only [intervalParse, List.head?_cons, List.tail_cons]
    rw [if_pos trivial]
    exact intervalYears_fmt v.Years v.Months v.Days v.Hours v.Minutes v.Seconds

/-! ## Appending a trailing `T` to a date-only input -/

theorem popDigitsLoop_snoc :
    ∀ (src : List Char) (acc : Int) (x : Char), charsetDigitDec x = false →
      ∀ (n : Int) (rest : List Char), popDigitsLoop acc src = (n, rest) →
        popDigitsLoop acc (src ++ [x]) = (n, rest ++ [x]) := by
  intro src
  induction src with
  | nil =>
      intro acc x hx n rest h
      simp only [popDigitsLoop, Prod.mk.injEq] at h
      obtain ⟨rfl, rfl⟩ := h
      simp [popDigitsLoop, hx]
  | cons c t ih =>
      intro acc x hx n rest h
      by_cases hc : charsetDigitDec c = true
      · simp only [popDigitsLoop, hc, if_true] at h
        rw [List.cons_append]
        simp only [popDigitsLoop, hc, if_true]
        exact ih (inc acc c) x hx n rest h
      · have hc2 : charsetDigitDec c = false := by
          cases hb : charsetDigitDec c
          · rfl
          · exact absurd hb hc
        simp only [popDigitsLoop, hc2, Bool.false_eq_true, if_false,
          Prod.mk.injEq] at h
        obtain ⟨rfl, rfl⟩ := h
        rw [List.cons_append]
        simp [popDigitsLoop, hc2]

theorem popDigitsLoop_sub :
    ∀ (src : List Char) (acc : Int) (c : Char),
      c ∈ (popDigitsLoop acc src).2 → c ∈ src := by
  intro src
  induction src with
  | nil =>
      intro acc c h
      simp [popDigitsLoop] at h
  | cons d t ih =>
      intro acc c h
      by_cases hd : charsetDigitDec d = true
      · simp only [popDigitsLoop, hd, if_true] at h
        exact List.mem_cons_of_mem d (ih (inc acc d) c h)
      · have hd2 : charsetDigitDec d = false := by
          cases hb : charsetDigitDec d
          · rfl
          · exact absurd hb hd
        simp only [popDigitsLoop, hd2, Bool.false_eq_true, if_false] at h
        exact h

theorem popPrefixInt_minus_cons (c : Char) (rest1 : List Char) :
    popPrefixInt ('-' :: (c :: rest1)) =
      (if charsetDigitDec c then
        some (-1 * (popDigitsLoop ((undigit c : Int)) rest1).1,
          (popDigitsLoop ((undigit c : Int)) rest1).2)
      else none) := rfl

theorem popPrefixInt_not_minus (c0 : Char) (rest0 : List Char) (hm : c0 ≠ '-') :
    popPrefixInt (c0 :: rest0) =
      (if charsetDigitDec c0 then
        some (1 * (popDigitsLoop ((undigit c0 : Int)) rest0).1,
          (popDigitsLoop ((undigit c0 : Int)) rest0).2)
      else none) := by
  simp only [popPrefixInt]
  rw [if_neg hm]

theorem popPrefixInt_snoc (src : List Char) (x : Char)
    (hx : charsetDigitDec x = false) (n : Int) (rest : List Char)
    (h : popPrefixInt src = some (n, rest)) :
    popPrefixInt (src ++ [x]) = some (n, rest ++ [x]) := by
  cases src with
  | nil => simp [popPrefixInt] at h
  | cons c0 rest0 =>
      by_cases hm : c0 = '-'
      · subst hm
        cases rest0 with
        | nil => simp [popPrefixInt] at h
        | cons c rest1 =>
            rw [popPrefixInt_minus_cons] at h
            by_cases hc : charsetDigitDec c = true
            · rcases hp : popDigitsLoop ((undigit c : Int)) rest1 with ⟨a, b⟩
              rw [if_pos hc, hp] at h
              simp only [Option.some.injEq, Prod.mk.injEq] at h
              obtain ⟨hn, hrest⟩ := h
              rw [List.cons_append, List.cons_append, popPrefixInt_minus_cons,
                if_pos hc, popDigitsLoop_snoc rest1 ((undigit c : Int)) x hx a b hp]
              simp [hn, hrest]
            · rw [if_neg hc] at h
              exact absurd h (by simp)
      · rw [popPrefixInt_not_minus c0 rest0 hm] at h
        by_cases hc : charsetDigitDec c0 = true
        · rcases hp : popDigitsLoop ((undigit c0 : Int)) rest0 with ⟨a, b⟩
          rw [if_pos hc, hp] at h
          simp only [Option.some.injEq, Prod.mk.injEq] at h
          obtain ⟨hn, hrest⟩ := h
          rw [List.cons_append, popPrefixInt_not_minus c0 (rest0 ++ [x]) hm,
            if_pos hc, popDigitsLoop_snoc rest0 ((undigit c0 : Int)) x hx a b hp]
          simp [hn, hrest]
        · rw [if_neg hc] at h
          exact absurd h (by simp)

theorem popPrefixInt_sub (src : List Char) (n : Int) (rest : List Char)
    (h : popPrefixInt src = some (n, rest)) : ∀ c, c ∈ rest → c ∈ src := by
  cases src with
  | nil => simp [popPrefixInt] at h
  | cons c0 rest0 =>
      by_cases hm : c0 = '-'
      · subst hm
        cases rest0 with
        | nil => simp [popPrefixInt] at h
        | cons c rest1 =>
            rw [popPrefixInt_minus_cons] at h
            by_cases hc : charsetDigitDec c = true
            · rcases hp : popDigitsLoop ((undigit c : Int)) rest1 with ⟨a, b⟩
              rw [if_pos hc, hp] at h
              simp only [Option.some.injEq, Prod.mk.injEq] at h
              obtain ⟨_, hrest⟩ := h
              intro d hd
              rw [← hrest] at hd
              have hdm : d ∈ rest1 := by
                have hs := popDigitsLoop_sub rest1 ((undigit c : Int)) d
                rw [hp] at hs
                exact hs hd
              exact List.mem_cons_of_mem _ (List.mem_cons_of_mem c hdm)
            · rw [if_neg hc] at h
              exact absurd h (by simp)
      · rw [popPrefixInt_not_minus c0 rest0 hm] at h
        by_cases hc : charsetDigitDec c0 = true
        · rcases hp : popDigitsLoop ((undigit c0 : Int)) rest0 with ⟨a, b⟩
          rw [if_pos hc, hp] at h
          simp only [Option.some.injEq, Prod.mk.injEq] at h
          obtain ⟨_, hrest⟩ := h
          intro d hd
          rw [← hrest] at hd
          have hdm : d ∈ rest0 := by
            have hs := popDigitsLoop_sub rest0 ((undigit c0 : Int)) d
            rw [hp] at hs
            exact hs hd
          exact List.mem_cons_of_mem c0 hdm
        · rw [if_neg hc] at h
          exact absurd h (by simp)

theorem intervalTime_snocT (buf : Interval) (src : List Char) (v : Interval)
    (h : intervalTime buf src = some v) (hT : 'T' ∉ src) :
    intervalTime buf (src ++ ['T']) = some v := by
  cases src with
  | nil =>
      change some buf = some v at h
      obtain rfl := Option.some.inj h
      rfl
  | cons c t =>
      have hcT : c ≠ 'T' := by
        intro e
        exact hT (by rw [e]; exact List.mem_cons_self _ _)
      exfalso
      simp only [intervalTime, if_neg (List.cons_ne_nil c t)] at h
      rw [if_neg (by simp [hcT])] at h
      exact Option.noConfusion h

theorem intervalDays_snocT (buf : Interval) (src : List Char) (v : Interval)
    (h : intervalDays buf src = some v) (hT : 'T' ∉ src) :
    intervalDays buf (src ++ ['T']) = some v := by
  cases src with
  | nil =>
      change some buf = some v at h
      obtain rfl := Option.some.inj h
      rfl
  | cons c t =>
      have hcT : c ≠ 'T' := by
        intro e
        exact hT (by rw [e]; exact List.mem_cons_self _ _)
      simp only [intervalDays, if_neg (List.cons_ne_nil c t)] at h
      rw [if_neg (by simp [hcT] : ¬ (c :: t).head? = some 'T')] at h
      rcases hpp : popPrefixInt (c :: t) with _ | ⟨nn, rest1⟩
      · rw [hpp] at h
        change (none : Option Interval) = some v at h
        exact Option.noConfusion h
      · rw [hpp] at h
        change (if rest1.head? = some 'D' then
            intervalTime { buf with Days := nn } rest1.tail
          else none) = some v at h
        by_cases hd : rest1.head? = some 'D'
        · rw [if_pos hd] at h
          cases rest1 with
          | nil => simp at hd
          | cons r1 rt =>
              simp only [List.head?_cons, Option.some.injEq] at hd
              subst hd
              have hsnoc := popPrefixInt_snoc (c :: t) 'T' (by decide) nn ('D' :: rt) hpp
              rw [List.cons_append]
              simp only [intervalDays, if_neg (List.cons_ne_nil c _)]
              rw [if_neg (by simp [hcT] : ¬ (c :: (t ++ ['T'])).head? = some 'T'),
                ← List.cons_append, hsnoc]
              change (if (('D' :: rt) ++ ['T']).head? = some 'D' then
                  intervalTime { buf with Days := nn } (('D' :: rt) ++ ['T']).tail
                else none) = some v
              simp only [List.cons_append, List.head?_cons, List.tail_cons]
              rw [if_pos trivial]
              apply intervalTime_snocT _ _ _ (by simpa using h)
              intro hmem
              exact hT (popPrefixInt_sub (c :: t) nn ('D' :: rt) hpp 'T'
                (List.mem_cons_of_mem 'D' hmem))
        · rw [if_neg hd] at h
          exact absurd h (by simp)

theorem intervalMonths_snocT (buf : Interval) (src : List Char) (v : Interval)
    (h : intervalMonths buf src = some v) (hT : 'T' ∉ src) :
    intervalMonths buf (src ++ ['T']) = some v := by
  cases src with
  | nil =>
      change some buf = some v at h
      obtain rfl := Option.some.inj h
      rfl
  | cons c t =>
      have hcT : c ≠ 'T' := by
        intro e
        exact hT (by rw [e]; exact List.mem_cons_self _ _)
      simp only [intervalMonths, if_neg (List.cons_ne_nil c t)] at h
      rw [if_neg (by simp [hcT] : ¬ (c :: t).head? = some 'T')] at h
      rcases hpp : popPrefixInt (c :: t) with _ | ⟨nn, rest1⟩
      · rw [hpp] at h
        change (none : Option Interval) = some v at h
        exact Option.noConfusion h
      · rw [hpp] at h
        change (if rest1.head? = some 'M' then
            intervalDays { buf with Months := nn } rest1.tail
          else if rest1.head? = some 'D' then
            intervalTime { buf with Days := nn } rest1.tail
          else none) = some v at h
        have hsub : ∀ d, d ∈ rest1 → d ∈ c :: t :=
          popPrefixInt_sub (c :: t) nn rest1 hpp
        have hsnoc := popPrefixInt_snoc (c :: t) 'T' (by decide) nn rest1 hpp
        rw [List.cons_append]
        simp only [intervalMonths, if_neg (List.cons_ne_nil c _)]
        rw [if_neg (by simp [hcT] : ¬ (c :: (t ++ ['T'])).head? = some 'T'),
          ← List.cons_append, hsnoc]
        change (if (rest1 ++ ['T']).head? = some 'M' then
            intervalDays { buf with Months := nn } (rest1 ++ ['T']).tail
          else if (rest1 ++ ['T']).head? = some 'D' then
            intervalTime { buf with Days := nn } (rest1 ++ ['T']).tail
          else none) = some v
        by_cases hm : rest1.head? = some 'M'
        · rw [if_pos hm] at h
          cases rest1 with
          | nil => simp at hm
          | cons r1 rt =>
              simp only [List.head?_cons, Option.some.injEq] at hm
              subst hm
              simp only [List.cons_append, List.head?_cons, List.tail_cons]
              rw [if_pos trivial]
              apply intervalDays_snocT _ _ _ (by simpa using h)
              intro hmem
              exact hT (hsub 'T' (List.mem_cons_of_mem 'M' hmem))
        · rw [if_neg hm] at h
          by_cases hd : rest1.head? = some 'D'
          · rw [if_pos hd] at h
            cases rest1 with
            | nil => simp at hd
            | cons r1 rt =>
                simp only [List.head?_cons, Option.some.injEq] at hd
                subst hd
                simp only [List.cons_append, List.head?_cons, List.tail_cons]
                rw [if_neg (by simp : ¬ ((some 'D' : Option Char) = some 'M')),
                  if_pos trivial]
                apply intervalTime_snocT _ _ _ (by simpa using h)
                intro hmem
                exact hT (hsub 'T' (List.mem_cons_of_mem 'D' hmem))
          · rw [if_neg hd] at h
            exact absurd h (by simp)

theorem intervalYears_snocT (buf : Interval) (src : List Char) (v : Interval)
    (h : intervalYears buf src = some v) (hT : 'T' ∉ src) :
    intervalYears buf (src ++ ['T']) = some v := by
  cases src with
  | nil =>
      change some buf = some v at h
      obtain rfl := Option.some.inj h
      rfl
  | cons c t =>
      have hcT : c ≠ 'T' := by
        intro e
        exact hT (by rw [e]; exact List.mem_cons_self _ _)
      simp only [intervalYears, if_neg (List.cons_ne_nil c t)] at h
      rw [if_neg (by simp [hcT] : ¬ (c :: t).head? = some 'T')] at h
      rcases hpp : popPrefixInt (c :: t) with _ | ⟨nn, rest1⟩
      · rw [hpp] at h
        change (none : Option Interval) = some v at h
        exact Option.noConfusion h
      · rw [hpp] at h
        change (if rest1.head? = some 'Y' then
            intervalMonths { buf with Years := nn } rest1.tail
          else if rest1.head? = some 'M' then
            intervalDays { buf with Months := nn } rest1.tail
          else if rest1.head? = some 'D' then
            intervalTime { buf with Days := nn } rest1.tail
          else none) = some v at h
        have hsub : ∀ d, d ∈ rest1 → d ∈ c :: t :=
          popPrefixInt_sub (c :: t) nn rest1 hpp
        have hsnoc := popPrefixInt_snoc (c :: t) 'T' (by decide) nn rest1 hpp
        rw [List.cons_append]
        simp only [intervalYears, if_neg (List.cons_ne_nil c _)]
        rw [if_neg (by simp [hcT] : ¬ (c :: (t ++ ['T'])).head? = some 'T'),
          ← List.cons_append, hsnoc]
        change (if (rest1 ++ ['T']).head? = some 'Y' then
            intervalMonths { buf with Years := nn } (rest1 ++ ['T']).tail
          else if (rest1 ++ ['T']).head? = some 'M' then
            intervalDays { buf with Months := nn } (rest1 ++ ['T']).tail
          else if (rest1 ++ ['T']).head? = some 'D' then
            intervalTime { buf with Days := nn } (rest1 ++ ['T']).tail
          else none) = some v
        by_cases hy : rest1.head? = some 'Y'
        · rw [if_pos hy] at h
          cases rest1 with
          | nil => simp at hy
          | cons r1 rt =>
              simp only [List.head?_cons, Option.some.injEq] at hy
              subst hy
              simp only [List.cons_append, List.head?_cons, List.tail_cons]
              rw [if_pos trivial]
              apply intervalMonths_snocT _ _ _ (by simpa using h)
              intro hmem
              exact hT (hsub 'T' (List.mem_cons_of_mem 'Y' hmem))
        · rw [if_neg hy] at h
          by_cases hm : rest1.head? = some 'M'
          · rw [if_pos hm] at h
            cases rest1 with
            | nil => simp at hm
            | cons r1 rt =>
                simp only [List.head?_cons, Option.some.injEq] at hm
                subst hm
                simp only [List.cons_append, List.head?_cons, List.tail_cons]
                rw [if_neg (by simp : ¬ ((some 'M' : Option Char) = some 'Y')),
                  if_pos trivial]
                apply intervalDays_snocT _ _ _ (by simpa using h)
                intro hmem
                exact hT (hsub 'T' (List.mem_cons_of_mem 'M' hmem))
          · rw [if_neg hm] at h
            by_cases hd : rest1.head? = some 'D'
            · rw [if_pos hd] at h
              cases rest1 with
              | nil => simp at hd
              | cons r1 rt =>
                  simp only [List.head?_cons, Option.some.injEq] at hd
                  subst hd
                  simp only [List.cons_append, List.head?_cons, List.tail_cons]
                  rw [if_neg (by simp : ¬ ((some 'D' : Option Char) = some 'Y')),
                    if_neg (by simp : ¬ ((some 'D' : Option Char) = some 'M')),
                    if_pos trivial]
                  apply intervalTime_snocT _ _ _ (by simpa using h)
                  intro hmem
                  exact hT (hsub 'T' (List.mem_cons_of_mem 'D' hmem))
            · rw [if_neg hd] at h
              exact absurd h (by simp)

/-- A failed run of the grammar machine makes `Interval.Parse` report the
error and return the receiver unchanged. -/
theorem interval_parse_none (r : Interval) (s : List Char)
    (h : intervalParse s = none) : Interval.Parse r s = (r, false) := by
  simp [Interval.Parse, h]

/-! ## The claims -/

/-- C1: identity round-trip. For every `Interval` value `v`, parsing the
formatter's output succeeds and returns `v` itself (field-wise equality,
any initial receiver); consequently, every formatter-produced string `s`
parses to a value that formats back to `s`. -/
theorem interval_parse_format_roundtrip :
    (∀ (v r : Interval), Interval.Parse r (Interval.String v) = (v, true)) ∧
    (∀ s : List Char, (∃ v : Interval, Interval.String v = s) →
      ∃ w : Interval, intervalParse s = some w ∧ Interval.String w = s) := by
  constructor
  · intro v r
    simp [Interval.Parse, intervalParse_string v]
  · rintro s ⟨v, rfl⟩
    exact ⟨v, intervalParse_string v, rfl⟩

/-- C1 witness: the round-trip at the concrete value `{1,2,3,4,5,6}`,
whose formatted form is `P1Y2M3DT4H5M6S`. -/
theorem interval_parse_format_roundtrip_case :
    Interval.String ⟨1, 2, 3, 4, 5, 6⟩ =
        ['P', '1', 'Y', '2', 'M', '3', 'D', 'T', '4', 'H', '5', 'M', '6', 'S'] ∧
      Interval.Parse Interval.zero (Interval.String ⟨1, 2, 3, 4, 5, 6⟩) =
        (⟨1, 2, 3, 4, 5, 6⟩, true) ∧
      ∃ w : Interval, intervalParse (Interval.String ⟨1, 2, 3, 4, 5, 6⟩) = some w ∧
        Interval.String w = Interval.String ⟨1, 2, 3, 4, 5, 6⟩ :=
  ⟨by decide,
   interval_parse_format_roundtrip.1 ⟨1, 2, 3, 4, 5, 6⟩ Interval.zero,
   interval_parse_format_roundtrip.2 (Interval.String ⟨1, 2, 3, 4, 5, 6⟩)
     ⟨⟨1, 2, 3, 4, 5, 6⟩, rfl⟩⟩

/-- C2 counterexample: parsing the bare string `P` does not fail — on the
code, the `years` state treats end of input as a completion point, so the
machine succeeds and yields the all-zero interval (the claim says it must
return a non-nil error). -/
theorem interval_parse_bare_p_cex :
    intervalParse ['P'] = some Interval.zero ∧
      Interval.Parse Interval.zero ['P'] = (Interval.zero, true) := by
  decide

/-- C2 amended: `Interval.Parse` of the bare string `P` succeeds for any
receiver and returns the all-zero interval. -/
theorem interval_parse_bare_p (r : Interval) :
    Interval.Parse r ['P'] = (Interval.zero, true) := by
  have h : intervalParse ['P'] = some Interval.zero := by decide
  simp [Interval.Parse, h]

/-- C3: evaluation at the failing input `{Years: -1}`. `bufLen` returns 3
(`intStrLen` counts only the sign of a negative field, because its digit
loop requires `val > 0`), while the formatted output `P-1Y` is 4 bytes
long — the pre-computed length is not the exact output length. -/
theorem interval_buflen_negative_eval :
    Interval.bufLen ⟨-1, 0, 0, 0, 0, 0⟩ = 3 ∧
      Interval.String ⟨-1, 0, 0, 0, 0, 0⟩ = ['P', '-', '1', 'Y'] ∧
      (Interval.String ⟨-1, 0, 0, 0, 0, 0⟩).length = 4 ∧
      intStrLen (-1) = 1 := by
  decide

/-- C4: the rejection set. Each of the eight inputs `""`, `" "`, `"1Y"`,
`"PT-"`, `"P-"`, `"P+0Y"`, `"P1Y-"`, `"P--0Y"` makes `Interval.Parse`
return a non-nil error, for every receiver, leaving the receiver
unchanged; none of them parses successfully. -/
theorem interval_parse_rejections :
    ∀ r : Interval,
      Interval.Parse r [] = (r, false) ∧
      Interval.Parse r [' '] = (r, false) ∧
      Interval.Parse r ['1', 'Y'] = (r, false) ∧
      Interval.Parse r ['P', 'T', '-'] = (r, false) ∧
      Interval.Parse r ['P', '-'] = (r, false) ∧
      Interval.Parse r ['P', '+', '0', 'Y'] = (r, false) ∧
      Interval.Parse r ['P', '1', 'Y', '-'] = (r, false) ∧
      Interval.Parse r ['P', '-', '-', '0', 'Y'] = (r, false) := by
  intro r
  refine ⟨?_, ?_, ?_, ?_, ?_, ?_, ?_, ?_⟩ <;>
    exact interval_parse_none r _ (by decide)

/-- C5: zero canonicalization. The all-zero interval formats to exactly
`PT0S`; `PT0S` parses back to the all-zero interval; and
`NullInterval.Parse` of the empty string succeeds and sets the receiver
to the all-zero value (the input never reaches the grammar machine). -/
theorem interval_zero_canonical :
    Interval.String Interval.zero = ['P', 'T', '0', 'S'] ∧
      intervalParse ['P', 'T', '0', 'S'] = some Interval.zero ∧
      ∀ r : NullInterval, NullInterval.Parse r [] = (Interval.zero, true) := by
  refine ⟨by decide, by decide, ?_⟩
  intro r
  rfl

/-- C6: `Interval.Duration` fails exactly when the value has a date part
(some of years, months, days non-zero); with no date part it returns
exactly `Hours` hours + `Minutes` minutes + `Seconds` seconds. -/
theorem interval_duration_ok :
    ∀ v : Interval,
      (Interval.Duration v = none ↔ Interval.HasDate v = true) ∧
      (Interval.HasDate v = true ↔ (v.Years ≠ 0 ∨ v.Months ≠ 0 ∨ v.Days ≠ 0)) ∧
      (Interval.HasDate v = false →
        Interval.Duration v =
          some ((v.Hours * 3600 + v.Minutes * 60 + v.Seconds) * timeSecondNs)) := by
  intro v
  refine ⟨?_, ?_, ?_⟩
  · by_cases h : Interval.HasDate v = true
    · simp [Interval.Duration, h]
    · simp [Interval.Duration, h]
  · simp only [Interval.HasDate, Bool.or_eq_true, bne_iff_ne, ne_eq]
    tauto
  · intro h
    simp only [Interval.Duration, h, Bool.false_eq_true, if_false,
      Option.some.injEq]
    simp only [timeHourNs, timeMinuteNs, timeSecondNs]
    ring

/-- C6 witness: 3 hours, 5 minutes, 7 seconds converts without failure to
`(3*3600 + 5*60 + 7)` seconds. -/
theorem interval_duration_ok_case :
    Interval.Duration ⟨0, 0, 0, 3, 5, 7⟩ =
      some ((3 * 3600 + 5 * 60 + 7) * timeSecondNs) :=
  (interval_duration_ok ⟨0, 0, 0, 3, 5, 7⟩).2.2 (by decide)

/-- C8: trailing bare `T`. Every input that parses successfully and
contains no `T` (a `P` plus date tokens only) still parses, to the same
value, after a single `T` is appended. -/
theorem interval_parse_trailing_t (d : List Char) (v : Interval)
    (h : intervalParse d = some v) (hT : 'T' ∉ d) :
    intervalParse (d ++ ['T']) = some v := by
  cases d with
  | nil => simp [intervalParse] at h
  | cons c t =>
      simp only [intervalParse, List.head?_cons] at h ⊢
      by_cases hp : c = 'P'
      · subst hp
        rw [if_pos rfl] at h
        rw [List.cons_append, List.head?_cons, List.tail_cons]
        rw [if_pos rfl]
        exact intervalYears_snocT Interval.zero t v h
          (fun hm => hT (List.mem_cons_of_mem 'P' hm))
      · rw [if_neg (by simp [hp])] at h
        exact absurd h (by simp)

/-- C8 witness: `P1D` parses to `{Days: 1}` and contains no `T`, and
appending `T` (giving `P1DT`) parses to the same value. -/
theorem interval_parse_trailing_t_case :
    intervalParse (['P', '1', 'D'] ++ ['T']) = some ⟨0, 0, 1, 0, 0, 0⟩ :=
  interval_parse_trailing_t ['P', '1', 'D'] ⟨0, 0, 1, 0, 0, 0⟩
    (by decide) (by decide)

/-- C9 counterexample: on the all-zero `Interval`, `IsZero` is `true`
while `IsNull` is `false`, so the two checks are not identical for the
non-null `Interval` type. -/
theorem interval_iszero_isnull_cex :
    Interval.IsZero Interval.zero = true ∧
      Interval.IsNull Interval.zero = false ∧
      ¬ Interval.IsZero Interval.zero = Interval.IsNull Interval.zero := by
  decide

/-- C9 amended: for `NullInterval` the two checks agree on every value;
for `Interval`, `IsNull` is constantly `false`, so `IsZero` and `IsNull`
agree exactly on the values different from the all-zero one. -/
theorem interval_iszero_isnull_amended :
    (∀ n : NullInterval, NullInterval.IsZero n = NullInterval.IsNull n) ∧
    (∀ v : Interval, Interval.IsNull v = false ∧
      (Interval.IsZero v = Interval.IsNull v ↔ v ≠ Interval.zero)) := by
  constructor
  · intro n
    rfl
  · intro v
    refine ⟨rfl, ?_⟩
    constructor
    · intro h hv
      subst hv
      rw [show Interval.IsNull Interval.zero = false from rfl] at h
      simp [Interval.IsZero] at h
    · intro h
      show Interval.IsZero v = false
      simp [Interval.IsZero, h]

/-- C10: parse is atomic on failure. For every initial receiver and every
input, if `Interval.Parse` reports an error then the receiver is
unchanged: the machine accumulates into a local buffer and the receiver
is assigned only after the whole input is validated. -/
theorem interval_parse_atomic (r : Interval) (s : List Char)
    (h : (Interval.Parse r s).2 = false) : (Interval.Parse r s).1 = r := by
  rcases hp : intervalParse s with _ | w
  · simp [Interval.Parse, hp]
  · simp [Interval.Parse, hp] at h

/-- C10 witness: parsing the invalid input `Q` with receiver
`{1,2,3,4,5,6}` errors and leaves the receiver at `{1,2,3,4,5,6}`. -/
theorem interval_parse_atomic_case :
    (Interval.Parse ⟨1, 2, 3, 4, 5, 6⟩ ['Q']).1 = ⟨1, 2, 3, 4, 5, 6⟩ :=
  interval_parse_atomic ⟨1, 2, 3, 4, 5, 6⟩ ['Q'] (by decide)

end gt
